import Mathlib

/-!
Shallow embedding of the process-supervision engine of Developer-Control-Center
(`src/main/services/ProcessService` and `src/main/services/RingBuffer.ts`),
together with proofs of the specified properties.

The mutable JavaScript `Map`s (`registry`, `projectIndex`, `processHandles`,
`logBuffers`) are modelled as association lists whose lookup returns the first
binding; `Map.set` replaces the binding in place, `Map.delete` removes it.
Asynchronous callbacks (`exit` / `error` handlers, the `taskkill` close
handler) are modelled as explicit state-transition functions on the shared
state, invoked with the values their closures captured.  External effects
(the OS spawn outcome, the filesystem, the settings store, the wall clock)
are passed in as explicit environment parameters.
-/

namespace DCC

/-! ### Association-list model of a JavaScript Map -/

/-- `Map.get`: first binding for the key, if any. -/
def mget {κ ν : Type} [DecidableEq κ] : List (κ × ν) → κ → Option ν
  | [], _ => none
  | (k', v) :: rest, k => if k' = k then some v else mget rest k

/-- `Map.set`: replace the existing binding in place, else append. -/
def mset {κ ν : Type} [DecidableEq κ] : List (κ × ν) → κ → ν → List (κ × ν)
  | [], k, v => [(k, v)]
  | (k', v') :: rest, k, v =>
      if k' = k then (k, v) :: rest else (k', v') :: mset rest k v

/-- `Map.delete`: remove the binding(s) for the key. -/
def merase {κ ν : Type} [DecidableEq κ] : List (κ × ν) → κ → List (κ × ν)
  | [], _ => []
  | (k', v') :: rest, k =>
      if k' = k then merase rest k else (k', v') :: merase rest k

/-- In-place mutation of the object stored under a key
(`registry.get(pid)!.status = s` in JavaScript). -/
def mmod {κ ν : Type} [DecidableEq κ] : List (κ × ν) → κ → (ν → ν) → List (κ × ν)
  | [], _, _ => []
  | (k', v') :: rest, k, f =>
      if k' = k then (k', f v') :: rest else (k', v') :: mmod rest k f

theorem mget_mset_self {κ ν : Type} [DecidableEq κ] (m : List (κ × ν)) (k : κ) (v : ν) :
    mget (mset m k v) k = some v := by
  induction m with
  | nil => simp [mget, mset]
  | cons p rest ih =>
      obtain ⟨k', v'⟩ := p
      by_cases h : k' = k <;> simp [mget, mset, h, ih]

theorem mget_mset_ne {κ ν : Type} [DecidableEq κ] (m : List (κ × ν)) (k k' : κ) (v : ν)
    (h : k' ≠ k) : mget (mset m k v) k' = mget m k' := by
  induction m with
  | nil => simp [mget, mset, Ne.symm h]
  | cons p rest ih =>
      obtain ⟨k₀, v₀⟩ := p
      by_cases h₀ : k₀ = k
      · subst h₀
        simp [mget, mset, Ne.symm h]
      · by_cases h₁ : k₀ = k' <;> simp [mget, mset, h₀, h₁, h, ih]

theorem mget_merase_self {κ ν : Type} [DecidableEq κ] (m : List (κ × ν)) (k : κ) :
    mget (merase m k) k = none := by
  induction m with
  | nil => simp [mget, merase]
  | cons p rest ih =>
      obtain ⟨k', v'⟩ := p
      by_cases h : k' = k <;> simp [mget, merase, h, ih]

theorem mget_merase_ne {κ ν : Type} [DecidableEq κ] (m : List (κ × ν)) (k k' : κ)
    (h : k' ≠ k) : mget (merase m k) k' = mget m k' := by
  induction m with
  | nil => simp [merase]
  | cons p rest ih =>
      obtain ⟨k₀, v₀⟩ := p
      by_cases h₀ : k₀ = k
      · subst h₀
        simp [mget, merase, Ne.symm h, ih]
      · by_cases h₁ : k₀ = k' <;> simp [mget, merase, h₀, h₁, h, ih]

theorem mget_mmod_self {κ ν : Type} [DecidableEq κ] (m : List (κ × ν)) (k : κ) (f : ν → ν) :
    mget (mmod m k f) k = (mget m k).map f := by
  induction m with
  | nil => simp [mget, mmod]
  | cons p rest ih =>
      obtain ⟨k', v'⟩ := p
      by_cases h : k' = k <;> simp [mget, mmod, h, ih]

theorem mget_mmod_ne {κ ν : Type} [DecidableEq κ] (m : List (κ × ν)) (k k' : κ) (f : ν → ν)
    (h : k' ≠ k) : mget (mmod m k f) k' = mget m k' := by
  induction m with
  | nil => simp [mmod]
  | cons p rest ih =>
      obtain ⟨k₀, v₀⟩ := p
      by_cases h₀ : k₀ = k
      · subst h₀
        simp [mget, mmod, Ne.symm h]
      · by_cases h₁ : k₀ = k' <;> simp [mget, mmod, h₀, h₁, h, ih]

/-! ### RingBuffer (`src/main/services/RingBuffer.ts`)

The backing store `buf = new Array<T>(capacity)` is a fixed-size array whose
slots start out as holes; it is modelled as a total function `Nat → Option α`
(`none` = hole).  The service only ever reads and writes indices reduced
modulo `capacity`, so no separate length field is needed. -/

/-- Pointwise update of the backing store (`this.buf[i] = item`). -/
def upd {α : Type} (f : Nat → Option α) (i : Nat) (v : Option α) : Nat → Option α :=
  fun j => if j = i then v else f j

theorem upd_self {α : Type} (f : Nat → Option α) (i : Nat) (v : Option α) :
    upd f i v i = v := by simp [upd]

theorem upd_ne {α : Type} (f : Nat → Option α) (i j : Nat) (v : Option α) (h : j ≠ i) :
    upd f i v j = f j := by simp [upd, h]

structure RingBuffer (α : Type) where
  capacity : Nat
  buf : Nat → Option α
  /-- index of the oldest entry -/
  head : Nat
  /-- current number of entries -/
  size : Nat

namespace RingBuffer

/-- The freshly allocated buffer state (all slots empty). -/
def makeEmpty {α : Type} (capacity : Nat) : RingBuffer α :=
  ⟨capacity, fun _ => none, 0, 0⟩

/-- The constructor: throws `RangeError` when `capacity < 1`, modelled as
`none`. -/
def create {α : Type} (capacity : Nat) : Option (RingBuffer α) :=
  if capacity < 1 then none else some (makeEmpty capacity)

/-- `push(item)`: append past the tail while under capacity, else overwrite
the oldest slot and advance the head pointer. -/
def push {α : Type} (rb : RingBuffer α) (item : α) : RingBuffer α :=
  if rb.size < rb.capacity then
    { rb with
        buf := upd rb.buf ((rb.head + rb.size) % rb.capacity) (some item)
        size := rb.size + 1 }
  else
    { rb with
        buf := upd rb.buf rb.head (some item)
        head := (rb.head + 1) % rb.capacity }

/-- `toArray()`: the `size` entries starting at `head`, oldest → newest.  A
slot that was never written would surface as `none`. -/
def toArray {α : Type} (rb : RingBuffer α) : List (Option α) :=
  (List.range rb.size).map (fun i => rb.buf ((rb.head + i) % rb.capacity))

/-- `clear()`: reset to empty without touching the backing store. -/
def clear {α : Type} (rb : RingBuffer α) : RingBuffer α :=
  { rb with head := 0, size := 0 }

/-- `length` getter. -/
def length {α : Type} (rb : RingBuffer α) : Nat := rb.size

/-- Push a whole sequence of items, left to right. -/
def pushAll {α : Type} (rb : RingBuffer α) (xs : List α) : RingBuffer α :=
  xs.foldl push rb

/-- Abstraction relation: the buffer state reached after pushing exactly the
items `hist` (oldest first) into a fresh buffer of capacity `c`. -/
def Models {α : Type} (rb : RingBuffer α) (c : Nat) (hist : List α) : Prop :=
  rb.capacity = c ∧
  rb.size = min hist.length c ∧
  rb.head = (hist.length - c) % c ∧
  ∀ i < rb.size, rb.buf ((rb.head + i) % c) = hist.get? (hist.length - rb.size + i)

theorem models_makeEmpty {α : Type} (c : Nat) : (makeEmpty (α := α) c).Models c [] := by
  refine ⟨rfl, by simp [makeEmpty], by simp [makeEmpty], ?_⟩
  intro i hi
  simp [makeEmpty] at hi

private theorem mod_add_ne {c head j : Nat} (hh : head < c) (hj1 : 0 < j) (hj2 : j < c) :
    (head + j) % c ≠ head := by
  rcases lt_or_ge (head + j) c with h | h
  · rw [Nat.mod_eq_of_lt h]
    omega
  · have hlt : head + j - c < c := by omega
    rw [Nat.mod_eq_sub_mod h, Nat.mod_eq_of_lt hlt]
    omega


theorem models_push {α : Type} {rb : RingBuffer α} {c : Nat} {hist : List α}
    (hc : 1 ≤ c) (hm : rb.Models c hist) (x : α) :
    (rb.push x).Models c (hist ++ [x]) := by
  obtain ⟨hcap, hsize, hhead, hslots⟩ := hm
  set n := hist.length with hn
  have hheadlt : rb.head < c := by rw [hhead]; exact Nat.mod_lt _ hc
  have hlen : (hist ++ [x]).length = n + 1 := by simp [hn]
  by_cases hfull : rb.size < rb.capacity
  · -- under capacity: append past the tail
    have hnc : n < c := by rw [hcap] at hfull; omega
    have hsz : rb.size = n := by omega
    have hhd : rb.head = 0 := by
      rw [hhead]
      have h0 : n - c = 0 := by omega
      simp [h0]
    have hpush : rb.push x =
        { rb with
            buf := upd rb.buf ((rb.head + rb.size) % rb.capacity) (some x)
            size := rb.size + 1 } := by
      unfold push; rw [if_pos hfull]
    refine ⟨by simp [hpush, hcap], ?_, ?_, ?_⟩
    · simp only [hpush]
      rw [hlen, hsz]
      omega
    · simp only [hpush, hlen, hhd]
      have h0 : n + 1 - c = 0 := by omega
      simp [h0]
    · intro i hi
      simp only [hpush] at hi ⊢
      rw [hsz] at hi
      have hW : (rb.head + rb.size) % rb.capacity = n := by
        rw [hhd, hsz, hcap, Nat.zero_add]
        exact Nat.mod_eq_of_lt hnc
      have hR : (rb.head + i) % c = i := by
        rw [hhd, Nat.zero_add]
        exact Nat.mod_eq_of_lt (by omega)
      have hI : (hist ++ [x]).length - (rb.size + 1) + i = i := by
        rw [hlen, hsz]; omega
      rw [hW, hR, hI]
      rcases Nat.lt_or_ge i n with hin | hin
      · rw [upd_ne _ _ _ _ (show i ≠ n by omega)]
        have hold := hslots i (by omega)
        rw [hR, hsz] at hold
        have e : n - n + i = i := by omega
        rw [e] at hold
        rw [hold]
        exact (List.get?_append hin).symm
      · have hieq : i = n := by omega
        subst hieq
        rw [upd_self]
        rw [List.get?_append_right (by omega)]
        have h0 : n - hist.length = 0 := by omega
        rw [h0]
        rfl
  · -- full: overwrite the oldest slot, advance the head pointer
    have hsz : rb.size = c := by rw [hcap] at hfull; omega
    have hnc : c ≤ n := by omega
    have hpush : rb.push x =
        { rb with
            buf := upd rb.buf rb.head (some x)
            head := (rb.head + 1) % rb.capacity } := by
      unfold push; rw [if_neg hfull]
    refine ⟨by simp [hpush, hcap], ?_, ?_, ?_⟩
    · simp only [hpush]
      rw [hlen, hsz]
      omega
    · simp only [hpush]
      rw [hcap, hhead, hlen]
      have h1 : n + 1 - c = (n - c) + 1 := by omega
      rw [h1, Nat.mod_add_mod]
    · intro i hi
      simp only [hpush] at hi ⊢
      rw [hsz] at hi
      have hI : (hist ++ [x]).length - rb.size + i = n + 1 - c + i := by
        rw [hlen, hsz]
      rw [hI, hcap]
      have hphys : ((rb.head + 1) % c + i) % c = (rb.head + (i + 1)) % c := by
        rw [Nat.mod_add_mod]
        congr 1
        omega
      rw [hphys]
      rcases Nat.lt_or_ge i (c - 1) with hin | hin
      · have hne : (rb.head + (i + 1)) % c ≠ rb.head :=
          mod_add_ne hheadlt (by omega) (by omega)
        rw [upd_ne _ _ _ _ hne]
        have hold := hslots (i + 1) (by omega)
        rw [hsz] at hold
        rw [hold]
        have hidx : n - c + (i + 1) = n + 1 - c + i := by omega
        rw [hidx]
        exact (List.get?_append (by omega)).symm
      · have hieq : i = c - 1 := by omega
        subst hieq
        have hphys2 : (rb.head + (c - 1 + 1)) % c = rb.head := by
          have h1 : c - 1 + 1 = c := by omega
          rw [h1, Nat.add_mod_right, Nat.mod_eq_of_lt hheadlt]
        rw [hphys2, upd_self]
        have hidx : n + 1 - c + (c - 1) = n := by omega
        rw [hidx]
        rw [List.get?_append_right (by omega)]
        have h0 : n - hist.length = 0 := by omega
        rw [h0]
        rfl

theorem models_toArray {α : Type} {rb : RingBuffer α} {c : Nat} {hist : List α}
    (hm : rb.Models c hist) :
    rb.toArray = (hist.drop (hist.length - c)).map some := by
  obtain ⟨hcap, hsize, hhead, hslots⟩ := hm
  set n := hist.length with hn
  have hminle1 : min n c ≤ n := Nat.min_le_left _ _
  have hminle2 : min n c ≤ c := Nat.min_le_right _ _
  have hsub : n - rb.size = n - c := by
    rcases Nat.le_total n c with h | h
    · rw [hsize, Nat.min_eq_left h]
      omega
    · rw [hsize, Nat.min_eq_right h]
  have hdroplen : (hist.drop (n - c)).length = rb.size := by
    rw [List.length_drop, ← hn, hsize]
    omega
  apply List.ext
  intro i
  rcases Nat.lt_or_ge i rb.size with hi | hi
  · have hfi : rb.toArray.get? i = some (rb.buf ((rb.head + i) % rb.capacity)) := by
      rw [toArray, List.get?_map, List.get?_range hi]
      rfl
    rw [hfi, hcap, hslots i hi, hsub]
    rw [List.get?_map, List.get?_drop]
    have hszn : rb.size ≤ n := by rw [hsize]; exact hminle1
    have hlt : n - c + i < n := by
      rcases Nat.le_total n c with h | h
      · rw [hsize, Nat.min_eq_left h] at hi
        omega
      · rw [hsize, Nat.min_eq_right h] at hi
        omega
    cases hval : hist.get? (n - c + i) with
    | none =>
        rw [List.get?_eq_none] at hval
        exact absurd hval (by omega)
    | some a => rfl
  · have h1 : rb.toArray.get? i = none := by
      rw [toArray, List.get?_eq_none]
      simpa using hi
    have h2 : ((hist.drop (n - c)).map some).get? i = none := by
      rw [List.get?_eq_none, List.length_map, hdroplen]
      exact hi
    rw [h1, h2]

theorem models_pushAll {α : Type} {rb : RingBuffer α} {c : Nat} {hist : List α}
    (hc : 1 ≤ c) (hm : rb.Models c hist) (xs : List α) :
    (rb.pushAll xs).Models c (hist ++ xs) := by
  induction xs generalizing rb hist with
  | nil => simpa [pushAll] using hm
  | cons x tl ih =>
      have h2 := ih (models_push hc hm x)
      simpa [pushAll, List.append_assoc] using h2

end RingBuffer

/-! ### Data model (`src/common/types` as used by `ProcessService`) -/

inductive PStatus
  | running
  | stopped
  | error
deriving DecidableEq, Repr

/-- Registry entry (the `type` field of the declared interface is never set or
read by `ProcessService` and is omitted). -/
structure ProcessEntry where
  pid : Nat
  projectId : String
  command : String
  startTime : Nat
  status : PStatus
deriving DecidableEq, Repr

inductive StreamKind
  | stdout
  | stderr
deriving DecidableEq, Repr

structure LogEntry where
  projectId : String
  pid : Nat
  data : String
  timestamp : Nat
  type : StreamKind
deriving DecidableEq, Repr

inductive SpawnErrorCode
  | EXECUTABLE_MISSING
  | SPAWN_FAILURE
  | PERMISSION_DENIED
  | SCRIPT_ERROR
  | UNKNOWN
deriving DecidableEq, Repr

structure SpawnError where
  projectId : String
  code : SpawnErrorCode
  message : String
deriving DecidableEq, Repr

/-- Renderer-facing status snapshot. -/
structure ProcessState where
  pid : Option Nat
  status : PStatus
  error : Option String
deriving DecidableEq, Repr

inductive ProjectType
  | nextjs
  | react
  | node
  | unity
  | python
  | unreal
  | generic
  | electron
  | nextron
deriving DecidableEq, Repr

/-- Events pushed through `eventEmitter` (fire-and-forget). -/
inductive EmittedEvent
  | state (projectId : String) (pid : Option Nat) (status : PStatus) (error : Option String)
  | stateSpawnErr (projectId : String) (pid : Option Nat) (status : PStatus) (error : SpawnError)
  | log (entry : LogEntry)

/-! ### Shared module state of `ProcessService`

`processHandles` stores raw `ChildProcess` objects; only its key set is
observable to the rest of the service, so it is modelled as the list of pids
holding a live handle. -/

structure EngineState where
  registry : List (Nat × ProcessEntry)
  projectIndex : List (String × Nat)
  processHandles : List Nat
  logBuffers : List (Nat × RingBuffer LogEntry)

/-- `processHandles.set(pid, child)` (key-set view). -/
def hadd (l : List Nat) (p : Nat) : List Nat :=
  if p ∈ l then l else l ++ [p]

/-- `processHandles.delete(pid)` (key-set view). -/
def hdel (l : List Nat) (p : Nat) : List Nat :=
  l.filter (fun q => q ≠ p)

theorem not_mem_hdel (l : List Nat) (p : Nat) : p ∉ hdel l p := by
  intro h
  rcases List.mem_filter.mp h with ⟨-, h2⟩
  simp at h2

theorem mem_hdel_of_ne {l : List Nat} {p q : Nat} (h : q ≠ p) : q ∈ hdel l p ↔ q ∈ l := by
  unfold hdel
  rw [List.mem_filter]
  simp [h]

theorem mem_hadd (l : List Nat) (p : Nat) : p ∈ hadd l p := by
  unfold hadd
  by_cases h : p ∈ l <;> simp [h]

/-- Maximum log lines retained per process (ring buffer capacity). -/
def LOG_BUFFER_SIZE : Nat := 1000

/-- Minimum allowed monitoring interval in milliseconds. -/
def MIN_MONITOR_INTERVAL_MS : Nat := 1500

/-- Actual monitoring poll interval used. -/
def MONITOR_INTERVAL_MS : Nat := 2000

def COMMAND_MAP : ProjectType → String
  | .nextron => "npm run dev"
  | .electron => "npm run dev"
  | .node => "npm run dev"
  | .python => "python main.py"
  | .unity => ""
  | .unreal => ""
  | .generic => "npm start"
  | .nextjs => "npm run dev"
  | .react => "npm run dev"

/-! ### Error classification -/

/-- `classifyError`, keyed off `err.code` (`undefined` = `none`). -/
def classifyError (errCode : Option String) : SpawnErrorCode :=
  if errCode = some "ENOENT" then .EXECUTABLE_MISSING
  else if errCode = some "EACCES" ∨ errCode = some "EPERM" then .PERMISSION_DENIED
  else if errCode = some "EAGAIN" ∨ errCode = some "EMFILE" then .SPAWN_FAILURE
  else .UNKNOWN

def makeSpawnError (projectId : String) (errCode : Option String) (errMsg : String) :
    SpawnError :=
  ⟨projectId, classifyError errCode, errMsg⟩

/-! ### Log buffer helpers -/

def ensureLogBuffer (bufs : List (Nat × RingBuffer LogEntry)) (pid : Nat) :
    List (Nat × RingBuffer LogEntry) :=
  match mget bufs pid with
  | some _ => bufs
  | none => mset bufs pid (RingBuffer.makeEmpty LOG_BUFFER_SIZE)

/-- `emitLog`: store the entry in the pid's ring buffer and forward it. -/
def emitLog (st : EngineState) (pid : Nat) (projectId data : String) (now : Nat)
    (type : StreamKind) : EngineState × EmittedEvent :=
  let entry : LogEntry := ⟨projectId, pid, data, now, type⟩
  let bufs := mmod (ensureLogBuffer st.logBuffers pid) pid (fun rb => rb.push entry)
  ({ st with logBuffers := bufs }, EmittedEvent.log entry)

/-- `getLogsForPid`: all buffered log lines for a pid (`?.toArray() ?? []`). -/
def getLogsForPid (st : EngineState) (pid : Nat) : List (Option LogEntry) :=
  match mget st.logBuffers pid with
  | none => []
  | some rb => rb.toArray

/-! ### Termination controller -/

structure StopOut where
  st : EngineState
  /-- pids handed to `spawnKill` (tree-kill via `taskkill`), in order. -/
  kills : List Nat
  events : List EmittedEvent

/-- `stopCommand(projectId)`: no-op without an active pid; otherwise mark the
entry stopped and drop the index entry and handle *before* issuing the
tree-kill, then emit the stopped state immediately. -/
def stopCommand (st : EngineState) (projectId : String) : StopOut :=
  match mget st.projectIndex projectId with
  | none => ⟨st, [], []⟩
  | some pid =>
      ⟨{ st with
          registry := mmod st.registry pid (fun e => { e with status := .stopped })
          projectIndex := merase st.projectIndex projectId
          processHandles := hdel st.processHandles pid },
        [pid],
        [EmittedEvent.state projectId none .stopped none]⟩

/-- The registry/index reconciliation performed by `killProcessByPid`'s
`close` callback once `taskkill` has finished. -/
def killByPidCleanup (st : EngineState) (pid : Nat) : EngineState :=
  match mget st.registry pid with
  | none => st
  | some entry =>
      { st with
          registry := mmod st.registry pid (fun e => { e with status := .stopped })
          projectIndex := merase st.projectIndex entry.projectId
          processHandles := hdel st.processHandles pid }

/-! ### Spawner -/

/-- The slice of `SettingsService.getSettings()` that `runCommand` reads. -/
structure Settings where
  unityPath : Option String
  unrealPath : Option String

/-- Result of the `spawn` call itself. -/
inductive SpawnOutcome
  | throwErr (code : Option String) (message : String)
  | okNoPid
  | ok (pid : Nat)

/-- External environment of one spawn request: settings store, filesystem
answers, the OS spawn outcome and the wall clock. -/
structure SpawnEnv where
  settings : Settings
  /-- `fs.existsSync` -/
  pathExists : String → Bool
  /-- `fs.readdirSync(cwd)` -/
  cwdFiles : List String
  outcome : SpawnOutcome
  now : Nat

/-- JavaScript truthiness + existence test:
`settings.xPath && fs.existsSync(settings.xPath)`. -/
def pathConfigured (p : Option String) (pathExists : String → Bool) : Bool :=
  match p with
  | none => false
  | some s => if s = "" then false else pathExists s

def pathJoin (a b : String) : String := a ++ "/" ++ b

inductive RunResult
  | ok (pid : Nat)
  | err (e : SpawnError)
deriving DecidableEq, Repr

structure RunOut where
  st : EngineState
  kills : List Nat
  events : List EmittedEvent
  result : RunResult

/-- The executable/argument/shell resolution in the body of `runCommand`. -/
def resolveSpawn (projectId cwd : String) (type : ProjectType) (env : SpawnEnv) :
    Except SpawnError (String × List String × Bool) :=
  match type with
  | .unity =>
      if pathConfigured env.settings.unityPath env.pathExists then
        .ok (env.settings.unityPath.getD "", ["-projectPath", cwd], false)
      else
        .error ⟨projectId, .EXECUTABLE_MISSING,
          "Unity executable path not configured or not found in Settings"⟩
  | .unreal =>
      if pathConfigured env.settings.unrealPath env.pathExists then
        match env.cwdFiles.find? (fun f => f.endsWith ".uproject") with
        | none =>
            .error ⟨projectId, .SCRIPT_ERROR,
              "No .uproject file found in the selected folder"⟩
        | some uproject =>
            .ok (env.settings.unrealPath.getD "", [pathJoin cwd uproject], false)
      else
        .error ⟨projectId, .EXECUTABLE_MISSING,
          "Unreal Engine path not configured or not found in Settings"⟩
  | t =>
      let fullCmd := if COMMAND_MAP t = "" then "npm start" else COMMAND_MAP t
      let parts := fullCmd.splitOn " "
      .ok (parts.headD "", parts.tail, true)

/-- Registration performed after a successful spawn: registry + index +
handle entries plus a cleared ring buffer for this run. -/
def registerSpawn (st : EngineState) (projectId : String) (pid : Nat)
    (commandStr : String) (now : Nat) : EngineState :=
  { st with
      registry := mset st.registry pid ⟨pid, projectId, commandStr, now, .running⟩
      projectIndex := mset st.projectIndex projectId pid
      processHandles := hadd st.processHandles pid
      logBuffers := mmod (ensureLogBuffer st.logBuffers pid) pid RingBuffer.clear }

/-- `runCommand(projectId, _command, cwd, type)`: stop any prior run, resolve
the executable, spawn, register, emit running — or return a classified
`SpawnError`. -/
def runCommand (st : EngineState) (projectId : String) (_command cwd : String)
    (type : ProjectType) (env : SpawnEnv) : RunOut :=
  let stop := stopCommand st projectId
  match resolveSpawn projectId cwd type env with
  | .error e => ⟨stop.st, stop.kills, stop.events, .err e⟩
  | .ok (execPath, args, _useShell) =>
      let commandStr := String.intercalate " " (execPath :: args)
      match env.outcome with
      | .throwErr code msg =>
          ⟨stop.st, stop.kills, stop.events, .err (makeSpawnError projectId code msg)⟩
      | .okNoPid =>
          ⟨stop.st, stop.kills, stop.events,
            .err ⟨projectId, .SPAWN_FAILURE,
              "Spawned process did not receive a PID - executable may be missing"⟩⟩
      | .ok pid =>
          ⟨registerSpawn stop.st projectId pid commandStr env.now,
            stop.kills,
            stop.events ++ [EmittedEvent.state projectId (some pid) .running none],
            .ok pid⟩

/-- `runRawCommand(projectId, command, args, cwd)`: same contract without
type-specific resolution and without the running state event. -/
def runRawCommand (st : EngineState) (projectId command : String) (args : List String)
    (_cwd : String) (env : SpawnEnv) : RunOut :=
  let stop := stopCommand st projectId
  match env.outcome with
  | .throwErr code msg =>
      ⟨stop.st, stop.kills, stop.events, .err (makeSpawnError projectId code msg)⟩
  | .okNoPid =>
      ⟨stop.st, stop.kills, stop.events,
        .err ⟨projectId, .SPAWN_FAILURE, "Failed to get PID for raw command: " ++ command⟩⟩
  | .ok pid =>
      ⟨registerSpawn stop.st projectId pid (String.intercalate " " (command :: args)) env.now,
        stop.kills, stop.events, .ok pid⟩

/-! ### Asynchronous exit / error handlers -/

structure HandlerOut where
  st : EngineState
  events : List EmittedEvent

def spawnErrorCodeText : SpawnErrorCode → String
  | .EXECUTABLE_MISSING => "EXECUTABLE_MISSING"
  | .SPAWN_FAILURE => "SPAWN_FAILURE"
  | .PERMISSION_DENIED => "PERMISSION_DENIED"
  | .SCRIPT_ERROR => "SCRIPT_ERROR"
  | .UNKNOWN => "UNKNOWN"

def codeText : Option Int → String
  | none => "null"
  | some i => toString i

/-- The `exit` handler registered by `runCommand`: caller-initiated iff the
project index no longer points at this pid. -/
def runExitHandler (st : EngineState) (projectId : String) (pid : Nat)
    (code : Option Int) (now : Nat) : HandlerOut :=
  let manualKilled : Bool := decide (mget st.projectIndex projectId ≠ some pid)
  let finalStatus : PStatus :=
    if code = some 0 ∨ manualKilled = true then .stopped else .error
  let st1 : EngineState :=
    { st with
        registry := mmod st.registry pid (fun e => { e with status := finalStatus })
        projectIndex :=
          if manualKilled = false then merase st.projectIndex projectId
          else st.projectIndex
        processHandles := hdel st.processHandles pid }
  let errField : Option String :=
    if finalStatus = .error then some ("Process exited with code " ++ codeText code)
    else none
  let stateEv := EmittedEvent.state projectId none finalStatus errField
  let logOut := emitLog st1 pid projectId ("Process exited with code " ++ codeText code)
      now (if code = some 0 then .stdout else .stderr)
  ⟨logOut.1, [stateEv, logOut.2]⟩

/-- The `error` handler registered by `runCommand`. -/
def runErrorHandler (st : EngineState) (projectId : String) (pid : Nat)
    (errCode : Option String) (errMsg : String) (now : Nat) : HandlerOut :=
  let st1 : EngineState :=
    { st with
        registry := mmod st.registry pid (fun e => { e with status := .error })
        projectIndex :=
          if mget st.projectIndex projectId = some pid then merase st.projectIndex projectId
          else st.projectIndex
        processHandles := hdel st.processHandles pid }
  let spawnErr := makeSpawnError projectId errCode errMsg
  let stateEv := EmittedEvent.stateSpawnErr projectId none .error spawnErr
  let logOut := emitLog st1 pid projectId
      ("Process error [" ++ spawnErrorCodeText spawnErr.code ++ "]: " ++ errMsg) now .stderr
  ⟨logOut.1, [stateEv, logOut.2]⟩

/-- The `exit` handler registered by `runRawCommand`: the recorded status is
decided by the exit code alone. -/
def rawExitHandler (st : EngineState) (projectId : String) (pid : Nat)
    (code : Option Int) (now : Nat) : HandlerOut :=
  let status : PStatus := if code = some 0 then .stopped else .error
  let st1 : EngineState :=
    { st with
        registry := mmod st.registry pid (fun e => { e with status := status })
        projectIndex :=
          if mget st.projectIndex projectId = some pid then merase st.projectIndex projectId
          else st.projectIndex
        processHandles := hdel st.processHandles pid }
  let logOut := emitLog st1 pid projectId ("Process exited with code " ++ codeText code)
      now (if code = some 0 then .stdout else .stderr)
  ⟨logOut.1, [logOut.2]⟩

/-- The `error` handler registered by `runRawCommand`. -/
def rawErrorHandler (st : EngineState) (projectId : String) (pid : Nat)
    (errCode : Option String) (errMsg : String) (now : Nat) : HandlerOut :=
  let st1 : EngineState :=
    { st with
        registry := mmod st.registry pid (fun e => { e with status := .error })
        projectIndex :=
          if mget st.projectIndex projectId = some pid then merase st.projectIndex projectId
          else st.projectIndex
        processHandles := hdel st.processHandles pid }
  let logOut := emitLog st1 pid projectId
      ("Process error [" ++ spawnErrorCodeText (classifyError errCode) ++ "]: " ++ errMsg)
      now .stderr
  ⟨logOut.1, [logOut.2]⟩

/-! ### Status queries -/

/-- `getStatus(projectId)`. -/
def getStatus (st : EngineState) (projectId : String) : ProcessState :=
  match mget st.projectIndex projectId with
  | none => ⟨none, .stopped, none⟩
  | some pid =>
      match mget st.registry pid with
      | none => ⟨none, .stopped, none⟩
      | some entry => ⟨some pid, entry.status, none⟩

/-- `getProjectIdByPid(pid)`. -/
def getProjectIdByPid (st : EngineState) (pid : Nat) : Option String :=
  (mget st.registry pid).map ProcessEntry.projectId

/-! ### Process-tree resolver

The tree is the child-pid → parent-pid map built by `getProcessTree`.  The
`while (current && !visited.has(current))` loop of `isDescendantInTree` is
embedded with an explicit iteration budget: `walkUp fuel current visited`
is `none` exactly when the loop needs more than `fuel` body iterations
(each body iteration adds `current` to the visited set).  `0` is falsy in
JavaScript, hence the `current ≠ 0` conjunct. -/

def walkUp (tree : List (Nat × Nat)) (rootPid : Nat) :
    Nat → Nat → List Nat → Option Bool
  | 0, current, visited =>
      if current ≠ 0 ∧ current ∉ visited then none else some false
  | fuel + 1, current, visited =>
      if current ≠ 0 ∧ current ∉ visited then
        match mget tree current with
        | none => some false
        | some parent =>
            if parent = rootPid then some true
            else walkUp tree rootPid fuel parent (current :: visited)
      else some false

/-- All pids appearing in the tree map, as parent or as child. -/
def treePids (tree : List (Nat × Nat)) : Finset Nat :=
  (tree.map Prod.fst).toFinset ∪ (tree.map Prod.snd).toFinset

theorem mget_mem {κ ν : Type} [DecidableEq κ] {m : List (κ × ν)} {k : κ} {v : ν}
    (h : mget m k = some v) : (k, v) ∈ m := by
  induction m with
  | nil => simp [mget] at h
  | cons p rest ih =>
      obtain ⟨k', v'⟩ := p
      by_cases hk : k' = k
      · subst hk
        simp [mget] at h
        simp [h]
      · simp [mget, hk] at h
        simp [ih h]

theorem walkUp_isSome_of_stop (tree : List (Nat × Nat)) (rootPid fuel current : Nat)
    (visited : List Nat) (h : ¬(current ≠ 0 ∧ current ∉ visited)) :
    (walkUp tree rootPid fuel current visited).isSome := by
  cases fuel <;> simp [walkUp, h]

/-- The loop finishes within `fuel` iterations whenever `fuel` exceeds the
number of not-yet-visited parent pids it can still step to. -/
theorem walkUp_isSome_of_card_lt (tree : List (Nat × Nat)) (rootPid : Nat) :
    ∀ (fuel current : Nat) (visited : List Nat),
      ((tree.map Prod.snd).toFinset.filter
          (fun v => v ∉ visited ∧ v ≠ current)).card < fuel →
      (walkUp tree rootPid fuel current visited).isSome := by
  intro fuel
  induction fuel with
  | zero =>
      intro current visited h
      exact absurd h (Nat.not_lt_zero _)
  | succ f ih =>
      intro current visited h
      by_cases hcond : current ≠ 0 ∧ current ∉ visited
      · rw [walkUp, if_pos hcond]
        cases hpar : mget tree current with
        | none => simp
        | some parent =>
            by_cases hroot : parent = rootPid
            · simp [hroot]
            · simp only [if_neg hroot]
              by_cases hnext : parent ≠ 0 ∧ parent ∉ (current :: visited)
              · apply ih
                have hvmem : parent ∈ (tree.map Prod.snd).toFinset := by
                  rw [List.mem_toFinset, List.mem_map]
                  exact ⟨(current, parent), mget_mem hpar, rfl⟩
                have hmem : parent ∈ (tree.map Prod.snd).toFinset.filter
                    (fun v => v ∉ visited ∧ v ≠ current) := by
                  rw [Finset.mem_filter]
                  refine ⟨hvmem, ?_, ?_⟩
                  · intro hv
                    exact hnext.2 (List.mem_cons_of_mem _ hv)
                  · intro he
                    exact hnext.2 (he ▸ List.mem_cons_self _ _)
                have hsubset : (tree.map Prod.snd).toFinset.filter
                      (fun v => v ∉ (current :: visited) ∧ v ≠ parent) ⊆
                    ((tree.map Prod.snd).toFinset.filter
                      (fun v => v ∉ visited ∧ v ≠ current)).erase parent := by
                  intro v hv
                  rw [Finset.mem_filter] at hv
                  rw [Finset.mem_erase, Finset.mem_filter]
                  obtain ⟨hvm, hv1, hv2⟩ := hv
                  rw [List.mem_cons] at hv1
                  push_neg at hv1
                  exact ⟨hv2, hvm, hv1.2, hv1.1⟩
                have hcard := Finset.card_le_card hsubset
                have herase := Finset.card_erase_of_mem hmem
                have hpos : 0 < ((tree.map Prod.snd).toFinset.filter
                    (fun v => v ∉ visited ∧ v ≠ current)).card :=
                  Finset.card_pos.mpr ⟨parent, hmem⟩
                omega
              · exact walkUp_isSome_of_stop _ _ _ _ _ hnext
      · exact walkUp_isSome_of_stop _ _ _ _ _ hcond

/-- `tree.length + 1` iterations always suffice (the first iteration may
consume the arbitrary target pid; every later `current` is a parent value
of the map, and the visited set forbids repeats). -/
theorem walkUp_isSome_len (tree : List (Nat × Nat)) (rootPid targetPid : Nat) :
    (walkUp tree rootPid (tree.length + 1) targetPid []).isSome := by
  apply walkUp_isSome_of_card_lt
  calc ((tree.map Prod.snd).toFinset.filter
        (fun v => v ∉ ([] : List Nat) ∧ v ≠ targetPid)).card
      ≤ (tree.map Prod.snd).toFinset.card := Finset.card_filter_le _ _
    _ ≤ (tree.map Prod.snd).length := List.toFinset_card_le _
    _ = tree.length := List.length_map _ _
    _ < tree.length + 1 := Nat.lt_succ_self _

/-- `isDescendantInTree(rootPid, targetPid, tree)`: the `tree.length + 1`
iteration budget is never exhausted (`walkUp_isSome_len`), so the `getD`
default is unreachable and this Bool is the loop's result. -/
def isDescendantInTree (rootPid targetPid : Nat) (tree : List (Nat × Nat)) : Bool :=
  if rootPid = targetPid then true
  else (walkUp tree rootPid (tree.length + 1) targetPid []).getD false

/-- `identifyProjectIdFromPid(targetPid)` against the tree snapshot obtained
from `getProcessTree()`: fast path on a direct registry hit, else the first
registry root that is an ancestor of the target. -/
def identifyProjectIdFromPid (st : EngineState) (tree : List (Nat × Nat))
    (targetPid : Nat) : Option String :=
  match mget st.registry targetPid with
  | some entry => some entry.projectId
  | none =>
      match st.registry.find? (fun p => isDescendantInTree p.1 targetPid tree) with
      | some p => some p.2.projectId
      | none => none

/-! ## Helper lemmas about the operations -/

theorem stopCommand_noop {st : EngineState} {projectId : String}
    (h : mget st.projectIndex projectId = none) :
    stopCommand st projectId = ⟨st, [], []⟩ := by
  unfold stopCommand
  rw [h]

theorem stopCommand_active {st : EngineState} {projectId : String} {pid : Nat}
    (h : mget st.projectIndex projectId = some pid) :
    stopCommand st projectId =
      ⟨{ st with
          registry := mmod st.registry pid (fun e => { e with status := .stopped })
          projectIndex := merase st.projectIndex projectId
          processHandles := hdel st.processHandles pid },
        [pid],
        [EmittedEvent.state projectId none .stopped none]⟩ := by
  unfold stopCommand
  rw [h]

/-! ## The claims -/

/-- Claim C7: `stopCommand(projectId)` is a no-op (no state change, no kill,
no event) when the ProjectIndex has no entry for the project; otherwise it
marks the registered entry stopped and removes the ProjectIndex entry and the
process handle as part of the same synchronous step that issues the tree-kill
on the pid, and emits the stopped state event immediately (the kill itself is
fire-and-forget, nothing awaits OS confirmation). -/
theorem claim_stop_command_spec (st : EngineState) (projectId : String) :
    (mget st.projectIndex projectId = none →
      stopCommand st projectId = ⟨st, [], []⟩) ∧
    (∀ pid, mget st.projectIndex projectId = some pid →
      (stopCommand st projectId).kills = [pid] ∧
      (stopCommand st projectId).events =
        [EmittedEvent.state projectId none .stopped none] ∧
      mget (stopCommand st projectId).st.registry pid
        = (mget st.registry pid).map (fun e => { e with status := PStatus.stopped }) ∧
      mget (stopCommand st projectId).st.projectIndex projectId = none ∧
      pid ∉ (stopCommand st projectId).st.processHandles) := by
  refine ⟨fun h => stopCommand_noop h, fun pid h => ?_⟩
  rw [stopCommand_active h]
  exact ⟨rfl, rfl, mget_mmod_self _ _ _, mget_merase_self _ _, not_mem_hdel _ _⟩

/-- Witness for C7 at a concrete one-process state and at the no-op state. -/
theorem claim_stop_command_spec_witness :
    (stopCommand ⟨[(5, ⟨5, "p", "npm run dev", 0, .running⟩)], [("p", 5)], [5], []⟩
        "p").kills = [5] ∧
    stopCommand (⟨[], [], [], []⟩ : EngineState) "q" = ⟨⟨[], [], [], []⟩, [], []⟩ :=
  ⟨((claim_stop_command_spec
      ⟨[(5, ⟨5, "p", "npm run dev", 0, .running⟩)], [("p", 5)], [5], []⟩ "p").2
        5 (by decide)).1,
   (claim_stop_command_spec ⟨[], [], [], []⟩ "q").1 rfl⟩

/-- Claim C9: `getLogsForPid` on a pid with no log buffer (never spawned, or
unknown) returns the empty sequence; the lookup is total, so no error can be
raised. -/
theorem claim_get_logs_unknown_pid (st : EngineState) (pid : Nat)
    (h : mget st.logBuffers pid = none) : getLogsForPid st pid = [] := by
  unfold getLogsForPid
  rw [h]

/-- Witness for C9 on the empty engine state. -/
theorem claim_get_logs_unknown_pid_witness :
    mget (⟨[], [], [], []⟩ : EngineState).logBuffers 424242 = none ∧
    getLogsForPid ⟨[], [], [], []⟩ 424242 = [] :=
  ⟨rfl, claim_get_logs_unknown_pid ⟨[], [], [], []⟩ 424242 rfl⟩

/-- Claim C10: `getStatus(projectId)` returns exactly
`{ pid: null, status: stopped }` both when the project has no index entry and
when its indexed pid has no registry entry; it is total and never reports
running or error for an untracked project. -/
theorem claim_get_status_untracked (st : EngineState) (projectId : String) :
    (mget st.projectIndex projectId = none →
      getStatus st projectId = ⟨none, .stopped, none⟩) ∧
    (∀ pid, mget st.projectIndex projectId = some pid →
      mget st.registry pid = none →
      getStatus st projectId = ⟨none, .stopped, none⟩) := by
  constructor
  · intro h
    unfold getStatus
    rw [h]
  · intro pid h1 h2
    unfold getStatus
    rw [h1]
    simp [h2]

/-- Witness for C10: an unknown project, and a project whose indexed pid is
not in the registry. -/
theorem claim_get_status_untracked_witness :
    getStatus (⟨[], [], [], []⟩ : EngineState) "p" = ⟨none, .stopped, none⟩ ∧
    getStatus (⟨[], [("q", 7)], [], []⟩ : EngineState) "q" = ⟨none, .stopped, none⟩ :=
  ⟨(claim_get_status_untracked ⟨[], [], [], []⟩ "p").1 rfl,
   (claim_get_status_untracked ⟨[], [("q", 7)], [], []⟩ "q").2 7 (by decide) rfl⟩

/-- Claim C6: for every capacity `c ≥ 1` and every sequence `xs` of pushes
into a fresh RingBuffer(c) with no intervening clear, `toArray()` returns
exactly the last `min |xs| c` pushed items in push order, oldest first
(under capacity push appends; once full it overwrites the oldest slot).
`xs.drop (|xs| - c)` is that suffix, and the `map some` shows every returned
slot was actually written. -/
theorem claim_ring_buffer_last_min (α : Type) (c : Nat) (hc : 1 ≤ c) (xs : List α) :
    ((RingBuffer.makeEmpty c).pushAll xs).toArray
      = (xs.drop (xs.length - c)).map some := by
  have h := RingBuffer.models_pushAll hc (RingBuffer.models_makeEmpty c) xs
  have h2 := RingBuffer.models_toArray h
  simpa using h2

/-- Witness for C6: the spec's two concrete examples,
capacity 3 with a,b,c,d and capacity 1 with x,y. -/
theorem claim_ring_buffer_last_min_witness :
    ((RingBuffer.makeEmpty 3).pushAll ["a", "b", "c", "d"]).toArray
        = [some "b", some "c", some "d"] ∧
    ((RingBuffer.makeEmpty 1).pushAll ["x", "y"]).toArray = [some "y"] := by
  constructor
  · have h := claim_ring_buffer_last_min String 3 (by decide) ["a", "b", "c", "d"]
    simpa using h
  · have h := claim_ring_buffer_last_min String 1 (by decide) ["x", "y"]
    simpa using h

/-- Claim C8 (corrected bound): the ancestry walk of `isDescendantInTree`
terminates on every finite parent map, cyclic or stale entries included:
each body iteration adds the current pid to the visited set, and every pid
stepped to after the first is a parent value of the map, so the walk
finishes within (number of pids in the map) + 1 iterations — `walkUp` with
that budget never reports fuel exhaustion. -/
theorem claim_ancestry_walk_terminates (tree : List (Nat × Nat))
    (rootPid targetPid : Nat) :
    (walkUp tree rootPid ((treePids tree).card + 1) targetPid []).isSome := by
  apply walkUp_isSome_of_card_lt
  have h1 : ((tree.map Prod.snd).toFinset.filter
      (fun v => v ∉ ([] : List Nat) ∧ v ≠ targetPid)).card
      ≤ (tree.map Prod.snd).toFinset.card := Finset.card_filter_le _ _
  have h2 : (tree.map Prod.snd).toFinset.card ≤ (treePids tree).card :=
    Finset.card_le_card Finset.subset_union_right
  omega

/-- Counterexample to C8 as stated: the claimed iteration bound "number of
pids in the map" fails on the empty map with target pid 2 — the loop still
runs one body iteration (visiting 2, finding no parent), so a budget of
0 = |pids| iterations is exhausted (`walkUp` = `none`). -/
theorem claim_ancestry_walk_terminates_counterexample :
    (treePids ([] : List (Nat × Nat))).card = 0 ∧
    walkUp ([] : List (Nat × Nat)) 1 0 2 [] = none := by
  exact ⟨by decide, by decide⟩

/-- Claim C4: `identifyProjectIdFromPid` (a) returns the owning project
immediately when the target pid is itself a tracked root, (b) returns the
project of a tracked root whose process tree contains the target as a direct
or transitive child, and (c) returns no match — as a total function, it
cannot throw — when the target has no ancestry to any tracked root, which
covers the empty tree. -/
theorem claim_identify_project_from_pid (st : EngineState)
    (tree : List (Nat × Nat)) (targetPid : Nat) :
    (∀ e, mget st.registry targetPid = some e →
      identifyProjectIdFromPid st tree targetPid = some e.projectId) ∧
    (mget st.registry targetPid = none →
      (∃ p ∈ st.registry, isDescendantInTree p.1 targetPid tree = true) →
      ∃ p ∈ st.registry, isDescendantInTree p.1 targetPid tree = true ∧
        identifyProjectIdFromPid st tree targetPid = some p.2.projectId) ∧
    (mget st.registry targetPid = none →
      (∀ p ∈ st.registry, isDescendantInTree p.1 targetPid tree = false) →
      identifyProjectIdFromPid st tree targetPid = none) := by
  refine ⟨?_, ?_, ?_⟩
  · intro e h
    unfold identifyProjectIdFromPid
    rw [h]
  · intro h hex
    unfold identifyProjectIdFromPid
    rw [h]
    cases hf : st.registry.find? (fun p => isDescendantInTree p.1 targetPid tree) with
    | none =>
        obtain ⟨p, hp, hdesc⟩ := hex
        rw [List.find?_eq_none] at hf
        exact absurd hdesc (by simpa using hf p hp)
    | some p =>
        have h0 := @List.find?_some _ _ _ _ hf
        have h1 : isDescendantInTree p.1 targetPid tree = true := h0
        exact ⟨p, List.mem_of_find?_eq_some hf, h1, by simp⟩
  · intro h hall
    unfold identifyProjectIdFromPid
    rw [h]
    cases hf : st.registry.find? (fun p => isDescendantInTree p.1 targetPid tree) with
    | none => simp
    | some p =>
        have h0 := @List.find?_some _ _ _ _ hf
        have h1 : isDescendantInTree p.1 targetPid tree = true := h0
        have h2 := List.mem_of_find?_eq_some hf
        rw [hall p h2] at h1
        cases h1

/-- Witness for C4: pid 42 is a child of tracked root 10 in the tree and is
resolved to that root's project; pid 2 has no ancestry in the same state and
yields no match; and this also exercises the empty tree. -/
theorem claim_identify_project_from_pid_witness :
    (∃ p ∈ [(10, (⟨10, "own", "npm run dev", 0, .running⟩ : ProcessEntry))],
      isDescendantInTree p.1 42 [(42, 10)] = true ∧
      identifyProjectIdFromPid
        ⟨[(10, ⟨10, "own", "npm run dev", 0, .running⟩)], [], [], []⟩
        [(42, 10)] 42 = some p.2.projectId) ∧
    identifyProjectIdFromPid
      ⟨[(10, ⟨10, "own", "npm run dev", 0, .running⟩)], [], [], []⟩ [] 2 = none :=
  ⟨(claim_identify_project_from_pid
      ⟨[(10, ⟨10, "own", "npm run dev", 0, .running⟩)], [], [], []⟩ [(42, 10)] 42).2.1
      (by decide)
      ⟨(10, ⟨10, "own", "npm run dev", 0, .running⟩), by simp, by decide⟩,
   (claim_identify_project_from_pid
      ⟨[(10, ⟨10, "own", "npm run dev", 0, .running⟩)], [], [], []⟩ [] 2).2.2
      (by decide)
      (by intro p hp; simp at hp; rw [hp]; decide)⟩

/-- The registry after `runCommand`'s exit handler: the entry's status is
overwritten with the computed final status. -/
theorem runExitHandler_registry (st : EngineState) (projectId : String) (pid : Nat)
    (code : Option Int) (now : Nat) :
    (runExitHandler st projectId pid code now).st.registry
      = mmod st.registry pid (fun e =>
          { e with status :=
              if code = some 0 ∨ decide (mget st.projectIndex projectId ≠ some pid) = true
              then PStatus.stopped else PStatus.error }) := rfl

/-- The registry after `runRawCommand`'s exit handler. -/
theorem rawExitHandler_registry (st : EngineState) (projectId : String) (pid : Nat)
    (code : Option Int) (now : Nat) :
    (rawExitHandler st projectId pid code now).st.registry
      = mmod st.registry pid (fun e =>
          { e with status := if code = some 0 then PStatus.stopped else PStatus.error }) :=
  rfl

/-- Claim C1 (corrected): the `runCommand` exit handler records exactly the
claimed rule — caller-initiated (the index no longer points at this pid)
gives stopped regardless of exit code, spontaneous code 0 gives stopped, and
spontaneous nonzero (or null) code gives error.  The `runRawCommand` exit
handler, however, ignores caller initiation: its recorded status depends on
the exit code alone, so only runCommand-spawned processes enjoy the
"killed is never error" guarantee. -/
theorem claim_exit_status_resolution (st : EngineState) (projectId : String)
    (pid : Nat) (code : Option Int) (now : Nat) :
    (mget st.projectIndex projectId ≠ some pid →
      mget (runExitHandler st projectId pid code now).st.registry pid
        = (mget st.registry pid).map (fun e => { e with status := PStatus.stopped })) ∧
    (mget st.projectIndex projectId = some pid → code = some 0 →
      mget (runExitHandler st projectId pid code now).st.registry pid
        = (mget st.registry pid).map (fun e => { e with status := PStatus.stopped })) ∧
    (mget st.projectIndex projectId = some pid → code ≠ some 0 →
      mget (runExitHandler st projectId pid code now).st.registry pid
        = (mget st.registry pid).map (fun e => { e with status := PStatus.error })) ∧
    (mget (rawExitHandler st projectId pid code now).st.registry pid
        = (mget st.registry pid).map (fun e =>
            { e with status := if code = some 0 then PStatus.stopped else PStatus.error })) := by
  refine ⟨?_, ?_, ?_, ?_⟩
  · intro h
    rw [runExitHandler_registry, mget_mmod_self]
    simp [h]
  · intro h1 h2
    rw [runExitHandler_registry, mget_mmod_self]
    simp [h2]
  · intro h1 h2
    rw [runExitHandler_registry, mget_mmod_self]
    simp [h1, h2]
  · rw [rawExitHandler_registry, mget_mmod_self]

/-- Witness for C1 (amended): a concrete caller-initiated runCommand exit
with nonzero code records stopped, and a concrete spontaneous nonzero exit
records error. -/
theorem claim_exit_status_resolution_witness :
    mget (runExitHandler ⟨[(5, ⟨5, "p", "npm run dev", 0, .running⟩)], [], [], []⟩
        "p" 5 (some 1) 7).st.registry 5
      = (mget [(5, (⟨5, "p", "npm run dev", 0, .running⟩ : ProcessEntry))] 5).map
          (fun e => { e with status := PStatus.stopped }) ∧
    mget (runExitHandler ⟨[(5, ⟨5, "p", "npm run dev", 0, .running⟩)], [("p", 5)], [5], []⟩
        "p" 5 (some 1) 7).st.registry 5
      = (mget [(5, (⟨5, "p", "npm run dev", 0, .running⟩ : ProcessEntry))] 5).map
          (fun e => { e with status := PStatus.error }) :=
  ⟨(claim_exit_status_resolution ⟨[(5, ⟨5, "p", "npm run dev", 0, .running⟩)], [], [], []⟩
      "p" 5 (some 1) 7).1 (by decide),
   (claim_exit_status_resolution
      ⟨[(5, ⟨5, "p", "npm run dev", 0, .running⟩)], [("p", 5)], [5], []⟩
      "p" 5 (some 1) 7).2.2.1 (by decide) (by decide)⟩

/-- Counterexample to C1 as stated: a runRawCommand-spawned process that the
caller already stopped (`stopCommand` marked it stopped and cleared its index
entry before killing it) exits with code 1; the raw exit handler re-records
its registry status as error, although the claim requires stopped for every
caller-initiated exit of a process spawned via runCommand *or*
runRawCommand. -/
theorem claim_exit_status_resolution_counterexample :
    mget (⟨[(5, ⟨5, "p", "sh build.sh", 0, .stopped⟩)], [], [], []⟩ :
        EngineState).projectIndex "p" ≠ some 5 ∧
    (mget (rawExitHandler ⟨[(5, ⟨5, "p", "sh build.sh", 0, .stopped⟩)], [], [], []⟩
        "p" 5 (some 1) 7).st.registry 5).map ProcessEntry.status
      = some PStatus.error := by
  exact ⟨by decide, by decide⟩

/-- On any synchronous spawn failure, `runCommand` returns exactly the state
produced by the initial stop of the prior run: the failing remainder adds
nothing. -/
theorem runCommand_err_eq {st : EngineState} {projectId command cwd : String}
    {type : ProjectType} {env : SpawnEnv} {e : SpawnError}
    (h : (runCommand st projectId command cwd type env).result = .err e) :
    runCommand st projectId command cwd type env =
      ⟨(stopCommand st projectId).st, (stopCommand st projectId).kills,
        (stopCommand st projectId).events, .err e⟩ := by
  unfold runCommand at h ⊢
  cases hres : resolveSpawn projectId cwd type env with
  | error e2 =>
      rw [hres] at h
      dsimp only at h ⊢
      injection h with h2
      subst h2
      rfl
  | ok v =>
      obtain ⟨ep, args2, sh⟩ := v
      rw [hres] at h
      dsimp only at h ⊢
      cases hout : env.outcome with
      | throwErr c2 m2 =>
          rw [hout] at h
          dsimp only at h ⊢
          injection h with h2
          subst h2
          rfl
      | okNoPid =>
          rw [hout] at h
          dsimp only at h ⊢
          injection h with h2
          subst h2
          rfl
      | ok p =>
          rw [hout] at h
          simp at h

/-- Same fact for `runRawCommand`. -/
theorem runRawCommand_err_eq {st : EngineState} {projectId command cwd : String}
    {args : List String} {env : SpawnEnv} {e : SpawnError}
    (h : (runRawCommand st projectId command args cwd env).result = .err e) :
    runRawCommand st projectId command args cwd env =
      ⟨(stopCommand st projectId).st, (stopCommand st projectId).kills,
        (stopCommand st projectId).events, .err e⟩ := by
  unfold runRawCommand at h ⊢
  cases hout : env.outcome with
  | throwErr c2 m2 =>
      rw [hout] at h
      dsimp only at h ⊢
      injection h with h2
      subst h2
      rfl
  | okNoPid =>
      rw [hout] at h
      dsimp only at h ⊢
      injection h with h2
      subst h2
      rfl
  | ok p =>
      rw [hout] at h
      simp at h

/-- Claim C2 (corrected): when `runCommand` or `runRawCommand` returns a
synchronous SpawnError (precondition failure, spawn throw, or a handle with
no pid), the failing remainder of the call performs no registry mutation:
the resulting shared state is exactly the state left by the initial
`stopCommand(projectId)` prelude.  Only when the project had no active
process at call time (the prelude is then a no-op) is the state exactly as
it was before the call — the unconditional all-or-nothing reading is refuted
by the counterexample. -/
theorem claim_sync_spawn_error_state (st : EngineState)
    (projectId command cwd : String) (args : List String)
    (type : ProjectType) (env : SpawnEnv) :
    (∀ e, (runCommand st projectId command cwd type env).result = .err e →
      (runCommand st projectId command cwd type env).st
        = (stopCommand st projectId).st) ∧
    (∀ e, (runRawCommand st projectId command args cwd env).result = .err e →
      (runRawCommand st projectId command args cwd env).st
        = (stopCommand st projectId).st) ∧
    (mget st.projectIndex projectId = none →
      ∀ e, (runCommand st projectId command cwd type env).result = .err e →
        (runCommand st projectId command cwd type env).st = st) ∧
    (mget st.projectIndex projectId = none →
      ∀ e, (runRawCommand st projectId command args cwd env).result = .err e →
        (runRawCommand st projectId command args cwd env).st = st) := by
  refine ⟨?_, ?_, ?_, ?_⟩
  · intro e h
    rw [runCommand_err_eq h]
  · intro e h
    rw [runRawCommand_err_eq h]
  · intro hidx e h
    rw [runCommand_err_eq h, stopCommand_noop hidx]
  · intro hidx e h
    rw [runRawCommand_err_eq h, stopCommand_noop hidx]

/-- Witness for C2 (amended): a failing Unity run over an active project
lands exactly on the stop-prelude state, and a throwing raw spawn over an
idle project leaves the state untouched. -/
theorem claim_sync_spawn_error_state_witness :
    (runCommand ⟨[(5, ⟨5, "p", "npm run dev", 0, .running⟩)], [("p", 5)], [5], []⟩
        "p" "" "/w" .unity ⟨⟨none, none⟩, fun _ => false, [], .okNoPid, 0⟩).st
      = (stopCommand ⟨[(5, ⟨5, "p", "npm run dev", 0, .running⟩)], [("p", 5)], [5], []⟩
          "p").st ∧
    (runRawCommand (⟨[], [], [], []⟩ : EngineState) "q" "cmd" [] "/w"
        ⟨⟨none, none⟩, fun _ => false, [], .throwErr (some "ENOENT") "spawn ENOENT", 0⟩).st
      = ⟨[], [], [], []⟩ :=
  ⟨(claim_sync_spawn_error_state
      ⟨[(5, ⟨5, "p", "npm run dev", 0, .running⟩)], [("p", 5)], [5], []⟩
      "p" "" "/w" [] .unity ⟨⟨none, none⟩, fun _ => false, [], .okNoPid, 0⟩).1
      ⟨"p", .EXECUTABLE_MISSING,
        "Unity executable path not configured or not found in Settings"⟩ (by decide),
   (claim_sync_spawn_error_state ⟨[], [], [], []⟩ "q" "cmd" "/w" [] .unity
      ⟨⟨none, none⟩, fun _ => false, [], .throwErr (some "ENOENT") "spawn ENOENT", 0⟩).2.2.2
      rfl ⟨"q", .EXECUTABLE_MISSING, "spawn ENOENT"⟩ (by decide)⟩

/-- Counterexample to C2 as stated: project p is running (pid 5); a
`runCommand` for p with an unconfigured Unity path returns a synchronous
EXECUTABLE_MISSING SpawnError, yet the ProjectIndex is no longer what it was
before the call — the stop prelude already removed p's entry (and issued a
kill), so the call is not all-or-nothing. -/
theorem claim_sync_spawn_error_state_counterexample :
    (runCommand ⟨[(5, ⟨5, "p", "npm run dev", 0, .running⟩)], [("p", 5)], [5], []⟩
        "p" "" "/w" .unity ⟨⟨none, none⟩, fun _ => false, [], .okNoPid, 0⟩).result
      = .err ⟨"p", .EXECUTABLE_MISSING,
          "Unity executable path not configured or not found in Settings"⟩ ∧
    (runCommand ⟨[(5, ⟨5, "p", "npm run dev", 0, .running⟩)], [("p", 5)], [5], []⟩
        "p" "" "/w" .unity ⟨⟨none, none⟩, fun _ => false, [], .okNoPid, 0⟩).st.projectIndex
      ≠ [("p", 5)] := by
  exact ⟨by decide, by decide⟩

/-! ### Key uniqueness of the association-list maps -/

/-- Each key holds at most one binding (what a JavaScript `Map` enforces
structurally). -/
def NoDupKeys {κ ν : Type} (m : List (κ × ν)) : Prop := (m.map Prod.fst).Nodup

theorem mem_keys_mset {κ ν : Type} [DecidableEq κ] (m : List (κ × ν)) (k k0 : κ) (v : ν) :
    k0 ∈ (mset m k v).map Prod.fst ↔ k0 ∈ m.map Prod.fst ∨ k0 = k := by
  induction m with
  | nil => simp [mset]
  | cons p rest ih =>
      obtain ⟨k1, v1⟩ := p
      by_cases h : k1 = k
      · subst h
        simp [mset]
        tauto
      · simp [mset, h, ih]
        tauto

theorem nodupkeys_mset {κ ν : Type} [DecidableEq κ] {m : List (κ × ν)} (k : κ) (v : ν)
    (h : NoDupKeys m) : NoDupKeys (mset m k v) := by
  induction m with
  | nil => simp [NoDupKeys, mset]
  | cons p rest ih =>
      obtain ⟨k1, v1⟩ := p
      rw [NoDupKeys, List.map_cons, List.nodup_cons] at h
      by_cases hk : k1 = k
      · subst hk
        rw [NoDupKeys, mset, if_pos rfl, List.map_cons, List.nodup_cons]
        exact h
      · rw [NoDupKeys, mset, if_neg hk, List.map_cons, List.nodup_cons]
        constructor
        · rw [mem_keys_mset]
          push_neg
          exact ⟨h.1, hk⟩
        · exact ih h.2

theorem mem_keys_merase {κ ν : Type} [DecidableEq κ] {m : List (κ × ν)} {k k0 : κ}
    (h : k0 ∈ (merase m k).map Prod.fst) : k0 ∈ m.map Prod.fst := by
  induction m with
  | nil => simp [merase] at h
  | cons p rest ih =>
      obtain ⟨k1, v1⟩ := p
      by_cases hk : k1 = k
      · rw [merase, if_pos hk] at h
        simp [ih h]
      · rw [merase, if_neg hk] at h
        rw [List.map_cons, List.mem_cons] at h ⊢
        rcases h with h | h
        · exact Or.inl h
        · exact Or.inr (ih h)

theorem nodupkeys_merase {κ ν : Type} [DecidableEq κ] {m : List (κ × ν)} {k : κ}
    (h : NoDupKeys m) : NoDupKeys (merase m k) := by
  induction m with
  | nil => simp [NoDupKeys, merase]
  | cons p rest ih =>
      obtain ⟨k1, v1⟩ := p
      rw [NoDupKeys, List.map_cons, List.nodup_cons] at h
      by_cases hk : k1 = k
      · rw [NoDupKeys, merase, if_pos hk]
        exact ih h.2
      · rw [NoDupKeys, merase, if_neg hk, List.map_cons, List.nodup_cons]
        exact ⟨fun hm => h.1 (mem_keys_merase hm), ih h.2⟩

theorem nodupkeys_stop (st : EngineState) (projectId : String)
    (h : NoDupKeys st.projectIndex) : NoDupKeys (stopCommand st projectId).st.projectIndex := by
  unfold stopCommand
  cases hq : mget st.projectIndex projectId with
  | none => exact h
  | some pid => exact nodupkeys_merase h

theorem mem_hadd_iff (l : List Nat) (p q : Nat) : q ∈ hadd l p ↔ q ∈ l ∨ q = p := by
  unfold hadd
  by_cases h : p ∈ l
  · rw [if_pos h]
    constructor
    · exact Or.inl
    · rintro (hq | rfl)
      · exact hq
      · exact h
  · rw [if_neg h]
    simp

/-- A successful `runCommand` is exactly: the stop prelude, then
registration of the OS-assigned pid, then the running event. -/
theorem runCommand_ok_eq {st : EngineState} {projectId command cwd : String}
    {type : ProjectType} {env : SpawnEnv} {pid : Nat}
    (h : (runCommand st projectId command cwd type env).result = .ok pid) :
    env.outcome = .ok pid ∧
    ∃ cmdStr, runCommand st projectId command cwd type env =
      ⟨registerSpawn (stopCommand st projectId).st projectId pid cmdStr env.now,
        (stopCommand st projectId).kills,
        (stopCommand st projectId).events
          ++ [EmittedEvent.state projectId (some pid) .running none],
        .ok pid⟩ := by
  unfold runCommand at h ⊢
  cases hres : resolveSpawn projectId cwd type env with
  | error e2 =>
      rw [hres] at h
      simp at h
  | ok v =>
      obtain ⟨ep, args2, sh⟩ := v
      rw [hres] at h
      dsimp only at h ⊢
      cases hout : env.outcome with
      | throwErr c2 m2 =>
          rw [hout] at h
          simp at h
      | okNoPid =>
          rw [hout] at h
          simp at h
      | ok p =>
          rw [hout] at h
          dsimp only at h
          injection h with h2
          subst h2
          exact ⟨rfl, ⟨_, rfl⟩⟩

/-- Claim C3: the ProjectIndex keeps at most one binding per project
(key uniqueness is preserved), and two back-to-back successful `runCommand`
calls for the same project leave exactly one tracked active process — the
second: the index maps the project to the second pid, the first pid has been
removed from the process-handle map, and the stop prelude of the second call
issued the tree-kill signal on the first pid before the second spawn was
registered. -/
theorem claim_successive_runs (st : EngineState) (projectId : String)
    (c1 w1 c2 w2 : String) (t1 t2 : ProjectType) (env1 env2 : SpawnEnv)
    (pid1 pid2 : Nat)
    (h1 : (runCommand st projectId c1 w1 t1 env1).result = .ok pid1)
    (h2 : (runCommand (runCommand st projectId c1 w1 t1 env1).st
        projectId c2 w2 t2 env2).result = .ok pid2)
    (hne : pid1 ≠ pid2)
    (hnd : NoDupKeys st.projectIndex) :
    mget (runCommand (runCommand st projectId c1 w1 t1 env1).st
        projectId c2 w2 t2 env2).st.projectIndex projectId = some pid2 ∧
    (runCommand (runCommand st projectId c1 w1 t1 env1).st
        projectId c2 w2 t2 env2).kills = [pid1] ∧
    pid2 ∈ (runCommand (runCommand st projectId c1 w1 t1 env1).st
        projectId c2 w2 t2 env2).st.processHandles ∧
    pid1 ∉ (runCommand (runCommand st projectId c1 w1 t1 env1).st
        projectId c2 w2 t2 env2).st.processHandles ∧
    NoDupKeys (runCommand (runCommand st projectId c1 w1 t1 env1).st
        projectId c2 w2 t2 env2).st.projectIndex := by
  obtain ⟨hout1, cmd1, heq1⟩ := runCommand_ok_eq h1
  have hidx1 : mget (runCommand st projectId c1 w1 t1 env1).st.projectIndex projectId
      = some pid1 := by
    rw [heq1]
    exact mget_mset_self _ _ _
  obtain ⟨hout2, cmd2, heq2⟩ := runCommand_ok_eq h2
  have hstop2 := stopCommand_active hidx1
  refine ⟨?_, ?_, ?_, ?_, ?_⟩
  · rw [heq2]
    exact mget_mset_self _ _ _
  · rw [heq2]
    dsimp only
    rw [hstop2]
  · rw [heq2]
    exact mem_hadd _ _
  · rw [heq2]
    dsimp only [registerSpawn]
    rw [hstop2]
    dsimp only
    rw [mem_hadd_iff]
    push_neg
    exact ⟨not_mem_hdel _ _, hne⟩
  · rw [heq2]
    dsimp only [registerSpawn]
    apply nodupkeys_mset
    apply nodupkeys_stop
    rw [heq1]
    dsimp only [registerSpawn]
    exact nodupkeys_mset _ _ (nodupkeys_stop st projectId hnd)

/-- Witness for C3: from the empty state, run project p twice (OS assigns
pids 5 then 6); the survivor is pid 6, pid 5 was killed and its handle is
gone. -/
theorem claim_successive_runs_witness :
    mget (runCommand (runCommand ⟨[], [], [], []⟩ "p" "" "/w" .node
        ⟨⟨none, none⟩, fun _ => false, [], .ok 5, 0⟩).st "p" "" "/w" .node
        ⟨⟨none, none⟩, fun _ => false, [], .ok 6, 1⟩).st.projectIndex "p" = some 6 ∧
    (runCommand (runCommand ⟨[], [], [], []⟩ "p" "" "/w" .node
        ⟨⟨none, none⟩, fun _ => false, [], .ok 5, 0⟩).st "p" "" "/w" .node
        ⟨⟨none, none⟩, fun _ => false, [], .ok 6, 1⟩).kills = [5] ∧
    6 ∈ (runCommand (runCommand ⟨[], [], [], []⟩ "p" "" "/w" .node
        ⟨⟨none, none⟩, fun _ => false, [], .ok 5, 0⟩).st "p" "" "/w" .node
        ⟨⟨none, none⟩, fun _ => false, [], .ok 6, 1⟩).st.processHandles ∧
    5 ∉ (runCommand (runCommand ⟨[], [], [], []⟩ "p" "" "/w" .node
        ⟨⟨none, none⟩, fun _ => false, [], .ok 5, 0⟩).st "p" "" "/w" .node
        ⟨⟨none, none⟩, fun _ => false, [], .ok 6, 1⟩).st.processHandles ∧
    NoDupKeys (runCommand (runCommand ⟨[], [], [], []⟩ "p" "" "/w" .node
        ⟨⟨none, none⟩, fun _ => false, [], .ok 5, 0⟩).st "p" "" "/w" .node
        ⟨⟨none, none⟩, fun _ => false, [], .ok 6, 1⟩).st.projectIndex :=
  claim_successive_runs ⟨[], [], [], []⟩ "p" "" "/w" "" "/w" .node .node
    ⟨⟨none, none⟩, fun _ => false, [], .ok 5, 0⟩
    ⟨⟨none, none⟩, fun _ => false, [], .ok 6, 1⟩ 5 6
    (by decide) (by decide) (by decide) (by simp [NoDupKeys])

/-! ### The registry/index coherence invariant -/

/-- Auxiliary (inductive) invariant of reachable states: every indexed pid
has a running registry entry *owned by the indexing project*. -/
def MapsCoherent (reg : List (Nat × ProcessEntry)) (idx : List (String × Nat)) : Prop :=
  ∀ P pid, mget idx P = some pid →
    ∃ e, mget reg pid = some e ∧ e.status = PStatus.running ∧ e.projectId = P

def Coherent (st : EngineState) : Prop := MapsCoherent st.registry st.projectIndex

/-- The invariant exactly as the spec states it: every pid in ProjectIndex
exists in Registry with status running. -/
def IndexRunning (st : EngineState) : Prop :=
  ∀ P pid, mget st.projectIndex P = some pid →
    ∃ e, mget st.registry pid = some e ∧ e.status = PStatus.running

/-- Stop-shaped step: erase the project being stopped from the index and
rewrite (arbitrarily) the registry entry of the pid it was indexing. -/
theorem mapsCoherent_stopStep {reg : List (Nat × ProcessEntry)}
    {idx : List (String × Nat)} {P : String} {pid : Nat}
    (hco : MapsCoherent reg idx) (hq : mget idx P = some pid)
    (f : ProcessEntry → ProcessEntry) :
    MapsCoherent (mmod reg pid f) (merase idx P) := by
  intro Q q hQ
  by_cases hQP : Q = P
  · subst hQP
    rw [mget_merase_self] at hQ
    cases hQ
  · rw [mget_merase_ne _ _ _ hQP] at hQ
    obtain ⟨e, he, hrun, hproj⟩ := hco Q q hQ
    obtain ⟨e0, he0, hrun0, hproj0⟩ := hco P pid hq
    have hqpid : q ≠ pid := by
      intro hqp
      subst hqp
      rw [he] at he0
      injection he0 with he1
      subst he1
      exact hQP (hproj ▸ hproj0 ▸ rfl)
    rw [mget_mmod_ne _ _ _ _ hqpid]
    exact ⟨e, he, hrun, hproj⟩

/-- Kill-shaped step: erase the project named by the registry entry of the
killed pid and rewrite that entry. -/
theorem mapsCoherent_killStep {reg : List (Nat × ProcessEntry)}
    {idx : List (String × Nat)} {pid : Nat} {entry : ProcessEntry}
    (hco : MapsCoherent reg idx) (hreg : mget reg pid = some entry)
    (f : ProcessEntry → ProcessEntry) :
    MapsCoherent (mmod reg pid f) (merase idx entry.projectId) := by
  intro Q q hQ
  by_cases hQP : Q = entry.projectId
  · subst hQP
    rw [mget_merase_self] at hQ
    cases hQ
  · rw [mget_merase_ne _ _ _ hQP] at hQ
    obtain ⟨e, he, hrun, hproj⟩ := hco Q q hQ
    have hqpid : q ≠ pid := by
      intro hqp
      subst hqp
      rw [he] at hreg
      injection hreg with he1
      subst he1
      exact hQP (by rw [hproj])
    rw [mget_mmod_ne _ _ _ _ hqpid]
    exact ⟨e, he, hrun, hproj⟩

/-- Handler step when the exiting pid is no longer indexed by its project:
the index is untouched, and the handler closure's project owns whatever
registry entry its pid still has. -/
theorem mapsCoherent_keepStep {reg : List (Nat × ProcessEntry)}
    {idx : List (String × Nat)} {P : String} {pid : Nat}
    (hco : MapsCoherent reg idx)
    (hpe : ∀ e, mget reg pid = some e → e.projectId = P)
    (hnk : mget idx P ≠ some pid)
    (f : ProcessEntry → ProcessEntry) :
    MapsCoherent (mmod reg pid f) idx := by
  intro Q q hQ
  obtain ⟨e, he, hrun, hproj⟩ := hco Q q hQ
  have hqpid : q ≠ pid := by
    intro hqp
    subst hqp
    have hQP : Q = P := by rw [← hproj, hpe e he]
    subst hQP
    exact hnk hQ
  rw [mget_mmod_ne _ _ _ _ hqpid]
  exact ⟨e, he, hrun, hproj⟩

/-- Registration step with an OS-fresh pid. -/
theorem mapsCoherent_registerStep {reg : List (Nat × ProcessEntry)}
    {idx : List (String × Nat)} {P : String} {pid : Nat} {entry : ProcessEntry}
    (hco : MapsCoherent reg idx)
    (hfresh : ∀ Q, mget idx Q ≠ some pid)
    (hst : entry.status = PStatus.running) (hpr : entry.projectId = P) :
    MapsCoherent (mset reg pid entry) (mset idx P pid) := by
  intro Q q hQ
  by_cases hQP : Q = P
  · subst hQP
    rw [mget_mset_self] at hQ
    injection hQ with hq2
    subst hq2
    rw [mget_mset_self]
    exact ⟨entry, rfl, hst, hpr⟩
  · rw [mget_mset_ne _ _ _ _ hQP] at hQ
    have hqpid : q ≠ pid := by
      intro hqp
      subst hqp
      exact hfresh Q hQ
    rw [mget_mset_ne _ _ _ _ hqpid]
    exact hco Q q hQ

theorem coherent_stop {st : EngineState} (projectId : String) (hco : Coherent st) :
    Coherent (stopCommand st projectId).st := by
  cases hq : mget st.projectIndex projectId with
  | none => rw [stopCommand_noop hq]; exact hco
  | some pid =>
      rw [stopCommand_active hq]
      exact mapsCoherent_stopStep hco hq _

theorem stop_index_sub {st : EngineState} {projectId : String} {Q : String} {v : Nat}
    (h : mget (stopCommand st projectId).st.projectIndex Q = some v) :
    mget st.projectIndex Q = some v := by
  rcases hq : mget st.projectIndex projectId with _ | pid
  · rwa [stopCommand_noop hq] at h
  · rw [stopCommand_active hq] at h
    dsimp only at h
    by_cases hQP : Q = projectId
    · subst hQP
      rw [mget_merase_self] at h
      cases h
    · rwa [mget_merase_ne _ _ _ hQP] at h

theorem coherent_registerSpawn {st : EngineState} {projectId : String} {pid : Nat}
    (cmd : String) (now : Nat) (hco : Coherent st)
    (hfresh : ∀ Q, mget st.projectIndex Q ≠ some pid) :
    Coherent (registerSpawn st projectId pid cmd now) :=
  mapsCoherent_registerStep hco hfresh rfl rfl

theorem coherent_runCommand {st : EngineState} {projectId command cwd : String}
    {type : ProjectType} {env : SpawnEnv} (hco : Coherent st)
    (hfresh : ∀ p Q, env.outcome = SpawnOutcome.ok p → mget st.projectIndex Q ≠ some p) :
    Coherent (runCommand st projectId command cwd type env).st := by
  cases hres : (runCommand st projectId command cwd type env).result with
  | err e =>
      rw [runCommand_err_eq hres]
      exact coherent_stop projectId hco
  | ok p =>
      obtain ⟨hout, cmd2, heq⟩ := runCommand_ok_eq hres
      rw [heq]
      refine coherent_registerSpawn _ _ (coherent_stop projectId hco) ?_
      intro Q hQ
      exact hfresh p Q hout (stop_index_sub hQ)

theorem coherent_runRawCommand {st : EngineState} {projectId command cwd : String}
    {args : List String} {env : SpawnEnv} (hco : Coherent st)
    (hfresh : ∀ p Q, env.outcome = SpawnOutcome.ok p → mget st.projectIndex Q ≠ some p) :
    Coherent (runRawCommand st projectId command args cwd env).st := by
  unfold runRawCommand
  cases hout : env.outcome with
  | throwErr c2 m2 => exact coherent_stop projectId hco
  | okNoPid => exact coherent_stop projectId hco
  | ok p =>
      refine coherent_registerSpawn _ _ (coherent_stop projectId hco) ?_
      intro Q hQ
      exact hfresh p Q hout (stop_index_sub hQ)

theorem coherent_killByPid {st : EngineState} (pid : Nat) (hco : Coherent st) :
    Coherent (killByPidCleanup st pid) := by
  unfold killByPidCleanup
  cases hreg : mget st.registry pid with
  | none => exact hco
  | some entry => exact mapsCoherent_killStep hco hreg _

theorem runExitHandler_index (st : EngineState) (projectId : String) (pid : Nat)
    (code : Option Int) (now : Nat) :
    (runExitHandler st projectId pid code now).st.projectIndex
      = if mget st.projectIndex projectId = some pid then merase st.projectIndex projectId
        else st.projectIndex := by
  unfold runExitHandler emitLog
  dsimp only
  by_cases h : mget st.projectIndex projectId = some pid <;> simp [h]

theorem runErrorHandler_index (st : EngineState) (projectId : String) (pid : Nat)
    (errCode : Option String) (errMsg : String) (now : Nat) :
    (runErrorHandler st projectId pid errCode errMsg now).st.projectIndex
      = if mget st.projectIndex projectId = some pid then merase st.projectIndex projectId
        else st.projectIndex := rfl

theorem runErrorHandler_registry (st : EngineState) (projectId : String) (pid : Nat)
    (errCode : Option String) (errMsg : String) (now : Nat) :
    (runErrorHandler st projectId pid errCode errMsg now).st.registry
      = mmod st.registry pid (fun e => { e with status := PStatus.error }) := rfl

theorem rawExitHandler_index (st : EngineState) (projectId : String) (pid : Nat)
    (code : Option Int) (now : Nat) :
    (rawExitHandler st projectId pid code now).st.projectIndex
      = if mget st.projectIndex projectId = some pid then merase st.projectIndex projectId
        else st.projectIndex := rfl

theorem rawErrorHandler_index (st : EngineState) (projectId : String) (pid : Nat)
    (errCode : Option String) (errMsg : String) (now : Nat) :
    (rawErrorHandler st projectId pid errCode errMsg now).st.projectIndex
      = if mget st.projectIndex projectId = some pid then merase st.projectIndex projectId
        else st.projectIndex := rfl

theorem rawErrorHandler_registry (st : EngineState) (projectId : String) (pid : Nat)
    (errCode : Option String) (errMsg : String) (now : Nat) :
    (rawErrorHandler st projectId pid errCode errMsg now).st.registry
      = mmod st.registry pid (fun e => { e with status := PStatus.error }) := rfl

theorem coherent_runExitHandler {st : EngineState} {projectId : String} {pid : Nat}
    (code : Option Int) (now : Nat) (hco : Coherent st)
    (hpe : ∀ e, mget st.registry pid = some e → e.projectId = projectId) :
    Coherent (runExitHandler st projectId pid code now).st := by
  unfold Coherent
  rw [runExitHandler_index, runExitHandler_registry]
  by_cases h : mget st.projectIndex projectId = some pid
  · rw [if_pos h]
    exact mapsCoherent_stopStep hco h _
  · rw [if_neg h]
    exact mapsCoherent_keepStep hco hpe h _

theorem coherent_runErrorHandler {st : EngineState} {projectId : String} {pid : Nat}
    (errCode : Option String) (errMsg : String) (now : Nat) (hco : Coherent st)
    (hpe : ∀ e, mget st.registry pid = some e → e.projectId = projectId) :
    Coherent (runErrorHandler st projectId pid errCode errMsg now).st := by
  unfold Coherent
  rw [runErrorHandler_index, runErrorHandler_registry]
  by_cases h : mget st.projectIndex projectId = some pid
  · rw [if_pos h]
    exact mapsCoherent_stopStep hco h _
  · rw [if_neg h]
    exact mapsCoherent_keepStep hco hpe h _

theorem coherent_rawExitHandler {st : EngineState} {projectId : String} {pid : Nat}
    (code : Option Int) (now : Nat) (hco : Coherent st)
    (hpe : ∀ e, mget st.registry pid = some e → e.projectId = projectId) :
    Coherent (rawExitHandler st projectId pid code now).st := by
  unfold Coherent
  rw [rawExitHandler_index, rawExitHandler_registry]
  by_cases h : mget st.projectIndex projectId = some pid
  · rw [if_pos h]
    exact mapsCoherent_stopStep hco h _
  · rw [if_neg h]
    exact mapsCoherent_keepStep hco hpe h _

theorem coherent_rawErrorHandler {st : EngineState} {projectId : String} {pid : Nat}
    (errCode : Option String) (errMsg : String) (now : Nat) (hco : Coherent st)
    (hpe : ∀ e, mget st.registry pid = some e → e.projectId = projectId) :
    Coherent (rawErrorHandler st projectId pid errCode errMsg now).st := by
  unfold Coherent
  rw [rawErrorHandler_index, rawErrorHandler_registry]
  by_cases h : mget st.projectIndex projectId = some pid
  · rw [if_pos h]
    exact mapsCoherent_stopStep hco h _
  · rw [if_neg h]
    exact mapsCoherent_keepStep hco hpe h _

/-- Claim C5: the invariant "every pid in ProjectIndex exists in Registry
with status running" holds at every coherent state and is preserved — as the
strengthened coherence invariant of reachable states — by every mutating
operation: stopCommand, runCommand, runRawCommand, killProcessByPid's
reconciliation, and the four asynchronous exit/error handlers.  The spawn
conjuncts assume the OS-assigned pid is fresh (not currently indexed), and
the handler conjuncts assume the handler's closed-over pid, if still
registered, is registered to the handler's own project — both facts the OS
pid allocator and Node's once-per-process exit/error delivery guarantee. -/
theorem claim_index_running_invariant (st : EngineState)
    (projectId command cwd : String) (args : List String) (type : ProjectType)
    (env : SpawnEnv) (pid : Nat) (code : Option Int) (errCode : Option String)
    (errMsg : String) (now : Nat)
    (hco : Coherent st)
    (hfresh : ∀ p Q, env.outcome = SpawnOutcome.ok p → mget st.projectIndex Q ≠ some p)
    (hpe : ∀ e, mget st.registry pid = some e → e.projectId = projectId) :
    IndexRunning st ∧
    Coherent (stopCommand st projectId).st ∧
    Coherent (runCommand st projectId command cwd type env).st ∧
    Coherent (runRawCommand st projectId command args cwd env).st ∧
    Coherent (killByPidCleanup st pid) ∧
    Coherent (runExitHandler st projectId pid code now).st ∧
    Coherent (runErrorHandler st projectId pid errCode errMsg now).st ∧
    Coherent (rawExitHandler st projectId pid code now).st ∧
    Coherent (rawErrorHandler st projectId pid errCode errMsg now).st :=
  ⟨fun P q hq => (hco P q hq).imp (fun _ he => ⟨he.1, he.2.1⟩),
   coherent_stop projectId hco,
   coherent_runCommand hco hfresh,
   coherent_runRawCommand hco hfresh,
   coherent_killByPid pid hco,
   coherent_runExitHandler code now hco hpe,
   coherent_runErrorHandler errCode errMsg now hco hpe,
   coherent_rawExitHandler code now hco hpe,
   coherent_rawErrorHandler errCode errMsg now hco hpe⟩

/-- Witness for C5: the one-project coherent state (p running as pid 5),
with a fresh spawn pid 6 and an exit handler closed over pid 5 and project
p. -/
theorem claim_index_running_invariant_witness :
    IndexRunning ⟨[(5, ⟨5, "p", "npm run dev", 0, .running⟩)], [("p", 5)], [5], []⟩ ∧
    Coherent (stopCommand ⟨[(5, ⟨5, "p", "npm run dev", 0, .running⟩)], [("p", 5)], [5], []⟩
        "p").st ∧
    Coherent (runCommand ⟨[(5, ⟨5, "p", "npm run dev", 0, .running⟩)], [("p", 5)], [5], []⟩
        "p" "" "/w" .node ⟨⟨none, none⟩, fun _ => false, [], .ok 6, 1⟩).st ∧
    Coherent (runRawCommand ⟨[(5, ⟨5, "p", "npm run dev", 0, .running⟩)], [("p", 5)], [5], []⟩
        "p" "" [] "/w" ⟨⟨none, none⟩, fun _ => false, [], .ok 6, 1⟩).st ∧
    Coherent (killByPidCleanup
        ⟨[(5, ⟨5, "p", "npm run dev", 0, .running⟩)], [("p", 5)], [5], []⟩ 5) ∧
    Coherent (runExitHandler ⟨[(5, ⟨5, "p", "npm run dev", 0, .running⟩)], [("p", 5)], [5], []⟩
        "p" 5 (some 0) 2).st ∧
    Coherent (runErrorHandler ⟨[(5, ⟨5, "p", "npm run dev", 0, .running⟩)], [("p", 5)], [5], []⟩
        "p" 5 (some "ENOENT") "spawn ENOENT" 2).st ∧
    Coherent (rawExitHandler ⟨[(5, ⟨5, "p", "npm run dev", 0, .running⟩)], [("p", 5)], [5], []⟩
        "p" 5 (some 0) 2).st ∧
    Coherent (rawErrorHandler ⟨[(5, ⟨5, "p", "npm run dev", 0, .running⟩)], [("p", 5)], [5], []⟩
        "p" 5 (some "ENOENT") "spawn ENOENT" 2).st :=
  claim_index_running_invariant
    ⟨[(5, ⟨5, "p", "npm run dev", 0, .running⟩)], [("p", 5)], [5], []⟩
    "p" "" "/w" [] .node ⟨⟨none, none⟩, fun _ => false, [], .ok 6, 1⟩
    5 (some 0) (some "ENOENT") "spawn ENOENT" 2
    (by
      intro P q hPq
      simp only [mget] at hPq
      split at hPq
      · rename_i hP
        injection hPq with hq2
        subst hq2
        subst hP
        exact ⟨⟨5, "p", "npm run dev", 0, .running⟩, by simp [mget], rfl, rfl⟩
      · cases hPq)
    (by
      intro p Q h
      cases h
      simp only [mget]
      split <;> simp)
    (by
      intro e he
      simp only [mget] at he
      split at he
      · injection he with he1
        rw [← he1]
      · cases he)

end DCC
